import Mathlib

/-!
Shallow embedding of the go-borges storage-management core: the plain
package's Repository (storer factory, Commit, Close), the siva package's
registry-cache and transactional-commit behaviour (modelled from the spec
where the siva implementation files are absent), the libraries aggregator,
and RepositoryID normalisation. External collaborators (go-git object
storage, billy filesystems, endpoint parsing) are modelled as parameters:
their results are inputs to the embedded functions.
-/

namespace Borges

/-- Access mode enumeration from the root package: RWMode, TransactionalRWMode,
ReadOnlyMode (in that iota order). -/
inductive Mode where
  | RWMode
  | TransactionalRWMode
  | ReadOnlyMode
deriving DecidableEq, Repr

/-- Closed enumeration of the error kinds declared across the packages
(go-errors kinds become constructors; the formatted arguments become fields).
`other` stands for an arbitrary error produced by an external collaborator. -/
inductive BorgesErr where
  | notImplemented
  | modeNotSupported (mode : Mode)
  | locationNotExists (id : String)
  | repositoryExists (id : String)
  | repositoryNotExists (id : String)
  | nonTransactional
  | emptyCommit
  | libraryExists (id : String)
  | libraryNotExists (id : String)
  | deadlineExceeded
  | other (msg : String)
deriving DecidableEq, Repr

/-- Storage engine handles as built by the plain package's storer factory:
a filesystem storage rooted at a path, the read-only guard wrapper
(util.ReadOnlyStorer), or the composite transactional overlay
(go-git transactional.NewStorage over a parent and a temporal storer). -/
inductive Storer where
  | filesystem (root : String)
  | readOnlyGuard (inner : Storer)
  | transactionalOverlay (parent : Storer) (temporal : Storer)
deriving DecidableEq, Repr

/-- The fields of plain.LocationOptions the storer factory consults. -/
structure LocationOpts where
  transactional : Bool
  performance : Bool
deriving DecidableEq, Repr

/-- Embeds plain.repositoryTemporalStorer: allocates a fresh temporary
directory (the external TempDir result is the `tmpPath` argument), builds a
filesystem storer rooted there and wraps parent and temporal storer into the
composite transactional overlay. -/
def repositoryTemporalStorer (tmpPath : String) (parent : Storer) :
    Storer × String :=
  (Storer.transactionalOverlay parent (Storer.filesystem tmpPath), tmpPath)

/-- Embeds plain.repositoryStorer: `repoPath` is the chroot of the location
filesystem at RepositoryPath(id); `tmpPath` is the temporary directory the
external allocator would return if one is requested. The switch on `mode` has
cases ReadOnlyMode and RWMode; every other mode value, TransactionalRWMode
included, falls to the default branch returning ErrModeNotSupported. -/
def repositoryStorer (opts : LocationOpts) (repoPath tmpPath : String)
    (mode : Mode) : Except BorgesErr (Storer × String) :=
  let s := Storer.filesystem repoPath
  match mode with
  | Mode.ReadOnlyMode => Except.ok (Storer.readOnlyGuard s, "")
  | Mode.RWMode =>
      if opts.transactional then
        Except.ok (repositoryTemporalStorer tmpPath s)
      else
        Except.ok (s, "")
  | Mode.TransactionalRWMode =>
      Except.error (BorgesErr.modeNotSupported Mode.TransactionalRWMode)

/-- The state of a plain.Repository handle relevant to Commit and Close:
its mode, the location options of the owning location, the temporal path and
the storer carried by the embedded git repository. -/
structure PlainRepository where
  id : String
  mode : Mode
  transactionalOpts : Bool
  temporalPath : String
  storer : Storer
deriving DecidableEq, Repr

/-- Trace of a Close call: the returned error and whether the temporal
directory removal (cleanupTemporal, butil.RemoveAll on temporalPath) was
executed. `removeErr` is the external RemoveAll result. -/
structure CloseTrace where
  err : Option BorgesErr
  removedTemp : Bool
deriving DecidableEq, Repr

/-- Embeds plain.Repository.Close: a no-op on non-transactional locations,
otherwise it removes the temporal directory and returns the removal result. -/
def PlainRepository.Close (r : PlainRepository)
    (removeErr : Option BorgesErr) : CloseTrace :=
  if r.transactionalOpts = false then ⟨none, false⟩
  else ⟨removeErr, true⟩

/-- Possible terminations of Commit: a normal return with or without error,
or a runtime panic (the unreachable-state assertion). -/
inductive Outcome where
  | ok
  | error (e : BorgesErr)
  | panicked
deriving DecidableEq, Repr

/-- Trace of a Commit call: its termination, whether the deferred
ioutil.CheckClose(r, &err) ran, whether the temporal directory removal was
executed, and whether the merge into the permanent store (ts.Commit) was
attempted. -/
structure CommitTrace where
  outcome : Outcome
  closeCalled : Bool
  tempReleased : Bool
  mergeAttempted : Bool
deriving DecidableEq, Repr

/-- Embeds plain.Repository.Commit. On a non-transactional location it
returns ErrNonTransactional before the deferred close is registered. Otherwise
the deferred CheckClose is registered, the storer is asserted to be the
composite transactional.Storage (a failed assertion panics with
"unreachable code"; the deferred close still runs while that panic
propagates), ts.Commit is called (its external result is `tsErr`) and
CheckClose overrides a nil error with the Close error. -/
def PlainRepository.Commit (r : PlainRepository)
    (tsErr removeErr : Option BorgesErr) : CommitTrace :=
  if r.transactionalOpts = false then
    ⟨Outcome.error BorgesErr.nonTransactional, false, false, false⟩
  else
    match r.storer with
    | Storer.transactionalOverlay _ _ =>
        let c := r.Close removeErr
        let e := match tsErr with
          | some e0 => some e0
          | none => c.err
        ⟨(match e with
          | some e1 => Outcome.error e1
          | none => Outcome.ok), true, c.removedTemp, true⟩
    | _ =>
        let c := r.Close removeErr
        ⟨Outcome.panicked, true, c.removedTemp, false⟩

/-- The state of a siva transactional repository handle that Commit
consults: whether its location is transactional and how many write
operations were staged in the overlay since it was opened. -/
structure SivaRepository where
  transactional : Bool
  stagedWrites : Nat
deriving DecidableEq, Repr

/-- Modelled from the spec: the siva package's Repository.Commit is not under
src (only its test location_registry_test.go is). Per the spec, Commit on a
non-transactional deployment fails with NonTransactional, and with zero
staged writes fails with EmptyCommit instead of succeeding as a no-op;
otherwise it merges the staged writes. -/
def sivaCommit (r : SivaRepository) : Except BorgesErr Unit :=
  if r.transactional = false then Except.error BorgesErr.nonTransactional
  else if r.stagedWrites = 0 then Except.error BorgesErr.emptyCommit
  else Except.ok ()

/-- Modelled from the spec: the siva library constructor holding the
registry-cache capacity clamp is not under src (only its test is). Per the
spec, if the deployment is transactional and the configured capacity is below
the documented minimum (registryCacheSize), the cache silently raises it to
that minimum; otherwise the requested capacity stands. -/
def effectiveRegistryCache (transactional : Bool) (minimum requested : Nat) :
    Nat :=
  if transactional = true ∧ requested < minimum then minimum else requested

/-- A member borges.Library of the aggregator, abstracted by its identifier
and by its responses to Get and Has. A Get response is a repository handle
(abstracted as a Nat) or an error; a Has response is the (has, libraryID,
locationID) triple or an error, mirroring the four Go return values. -/
structure MemberLib where
  id : String
  getResp : String → Mode → Except BorgesErr Nat
  hasResp : String → Except BorgesErr (Bool × String × String)

/-- Embeds borges.ErrRepositoryNotExists.Is: the kind check matches the
constructor whatever its formatted argument. -/
def isRepoNotExists : BorgesErr → Bool
  | BorgesErr.repositoryNotExists _ => true
  | _ => false

/-- Whether a member library's Get response answers RepositoryNotExists. -/
def respIsNotExists (r : Except BorgesErr Nat) : Bool :=
  match r with
  | Except.error e => isRepoNotExists e
  | Except.ok _ => false

/-- Loop body of Libraries.Get: `ctxDone i` tells whether the context
deadline had expired before the i-th probe (the select on ctx.Done()). A
member answering a RepositoryNotExists error is skipped; any other error and
any success short-circuits; an exhausted loop answers RepositoryNotExists. -/
def librariesGetAux (ctxDone : Nat → Bool) (id : String) (mode : Mode) :
    Nat → List MemberLib → Except BorgesErr Nat
  | _, [] => Except.error (BorgesErr.repositoryNotExists id)
  | i, lib :: rest =>
      if ctxDone i then Except.error BorgesErr.deadlineExceeded
      else
        match lib.getResp id mode with
        | Except.error e =>
            if isRepoNotExists e then librariesGetAux ctxDone id mode (i + 1) rest
            else Except.error e
        | Except.ok r => Except.ok r

/-- Embeds libraries.Libraries.Get over the member list in the map's
iteration order. -/
def librariesGet (ctxDone : Nat → Bool) (libs : List MemberLib) (id : String)
    (mode : Mode) : Except BorgesErr Nat :=
  librariesGetAux ctxDone id mode 0 libs

/-- Loop body of Libraries.Has: any member error is returned immediately
(there is no RepositoryNotExists continue-check here, unlike Get); a member
answering has = true short-circuits; an exhausted loop answers
(false, "", "") without error. -/
def librariesHasAux (ctxDone : Nat → Bool) (id : String) :
    Nat → List MemberLib → Except BorgesErr (Bool × String × String)
  | _, [] => Except.ok (false, "", "")
  | i, lib :: rest =>
      if ctxDone i then Except.error BorgesErr.deadlineExceeded
      else
        match lib.hasResp id with
        | Except.error e => Except.error e
        | Except.ok (has, libID, locID) =>
            if has then Except.ok (true, libID, locID)
            else librariesHasAux ctxDone id (i + 1) rest

/-- Embeds libraries.Libraries.Has over the member list in the map's
iteration order. -/
def librariesHas (ctxDone : Nat → Bool) (libs : List MemberLib)
    (id : String) : Except BorgesErr (Bool × String × String) :=
  librariesHasAux ctxDone id 0 libs

/-- The aggregator state: the LibraryID-keyed member map (modelled as an
association list) and the operation timeout of its options. -/
structure LibrariesAgg where
  libs : List (String × MemberLib)
  timeoutSeconds : Nat

/-- Embeds libraries.Libraries.ID: the aggregator answers the empty
LibraryID. -/
def LibrariesAgg.ID (_ : LibrariesAgg) : String := ""

/-- Embeds libraries.Libraries.Add: fails with ErrLibraryExists when a member
with the same ID is registered, otherwise stores the member keyed by its own
ID. -/
def LibrariesAgg.add (l : LibrariesAgg) (lib : MemberLib) :
    Except BorgesErr LibrariesAgg :=
  if (l.libs.lookup lib.id).isSome then
    Except.error (BorgesErr.libraryExists lib.id)
  else
    Except.ok ⟨l.libs ++ [(lib.id, lib)], l.timeoutSeconds⟩

/-- Splits a path (as a character list) on the slash separator; always
returns at least one (possibly empty) component. -/
def splitParts : List Char → List (List Char)
  | [] => [[]]
  | c :: rest =>
      match splitParts rest with
      | [] => [[]]
      | p :: ps => if c = '/' then [] :: p :: ps else (c :: p) :: ps

/-- One step of the stack formulation of Go path.Clean: empty and dot
components are dropped; a dotdot pops the last pushed name when one is
poppable, is dropped at the root of a rooted path, and is kept on an
unrooted path; every other name is pushed. -/
def cleanStep (rooted : Bool) (stack : List (List Char)) (c : List Char) :
    List (List Char) :=
  if c = [] ∨ c = ['.'] then stack
  else if c = ['.', '.'] then
    if stack ≠ [] ∧ stack.getLast? ≠ some ['.', '.'] then stack.dropLast
    else if rooted then stack
    else stack ++ [c]
  else stack ++ [c]

/-- Joins components with a separator, mirroring strings.Join. -/
def interc (sep : List Char) : List (List Char) → List Char
  | [] => []
  | [x] => x
  | x :: y :: xs => x ++ sep ++ interc sep (y :: xs)

/-- Output assembly of Go path.Clean once rootedness is known: the processed
component stack is joined with slashes; a rooted path keeps its leading
slash, and an unrooted path whose components all cancel cleans to ".". -/
def cleanRooted (rooted : Bool) (p : List Char) : List Char :=
  if rooted then
    '/' :: interc ['/'] ((splitParts p).foldl (cleanStep rooted) [])
  else
    if interc ['/'] ((splitParts p).foldl (cleanStep rooted) []) = [] then ['.']
    else interc ['/'] ((splitParts p).foldl (cleanStep rooted) [])

/-- Embeds Go path.Clean (the lazybuf scan expressed as component
processing): an empty path cleans to ".", otherwise the components are
processed knowing whether the path is rooted. -/
def clean (p : List Char) : List Char :=
  if p = [] then ['.']
  else cleanRooted (p.head? = some '/') p

/-- Embeds Go path.Join: leading empty elements are skipped, the remaining
elements are joined with slashes and the result is cleaned; all-empty input
yields the empty path. -/
def joinPaths : List (List Char) → List Char
  | [] => []
  | e :: rest => if e = [] then joinPaths rest else clean (interc ['/'] (e :: rest))

/-- The fixed RepositoryID suffix ".git". -/
def dotGit : List Char := ['.', 'g', 'i', 't']

/-- Embeds borges.NewRepositoryID after the external endpoint parse
(transport.NewEndpoint): given the parsed endpoint's Host and Path, the
suffix ".git" is appended to the path unless already present, and the result
is path.Join(Host, Path). -/
def newRepositoryID (host p : List Char) : List Char :=
  joinPaths [host, if dotGit <:+ p then p else p ++ dotGit]

/-- splitParts of a slash-free path is a single component. -/
theorem splitParts_no_slash (g : List Char) (hs : '/' ∉ g) :
    splitParts g = [g] := by
  induction g with
  | nil => rfl
  | cons c rest ih =>
      have hc : c ≠ '/' := fun h => hs (h ▸ List.mem_cons_self c rest)
      have hrest : '/' ∉ rest := fun h => hs (List.mem_cons_of_mem c h)
      simp only [splitParts, ih hrest]
      simp [hc]

/-- Any path ending in ".git" splits into components whose last one still
ends in ".git" (the suffix contains no separator). -/
theorem splitParts_last_dotGit :
    ∀ t : List Char, ∃ qs c,
      splitParts (t ++ dotGit) = qs ++ [c] ∧ dotGit <:+ c := by
  intro t
  induction t with
  | nil =>
      refine ⟨[], dotGit, ?_, List.suffix_refl dotGit⟩
      simp [splitParts_no_slash dotGit (by decide)]
  | cons ch t ih =>
      obtain ⟨qs, c, hsp, hc⟩ := ih
      cases qs with
      | nil =>
          by_cases hch : ch = '/'
          · refine ⟨[[]], c, ?_, hc⟩
            simp [splitParts, hsp, hch]
          · refine ⟨[], ch :: c, ?_, hc.trans (List.suffix_cons ch c)⟩
            simp [splitParts, hsp, hch]
      | cons q qs =>
          by_cases hch : ch = '/'
          · refine ⟨[] :: q :: qs, c, ?_, hc⟩
            simp [splitParts, hsp, hch]
          · refine ⟨(ch :: q) :: qs, c, ?_, hc⟩
            simp [splitParts, hsp, hch]

/-- A regular component (not empty, dot or dotdot) is pushed by the clean
step. -/
theorem cleanStep_normal (r : Bool) (st : List (List Char)) (c : List Char)
    (h0 : c ≠ []) (h1 : c ≠ ['.']) (h2 : c ≠ ['.', '.']) :
    cleanStep r st c = st ++ [c] := by
  have hor : ¬(c = [] ∨ c = ['.']) := fun h => h.elim h0 h1
  rw [cleanStep, if_neg hor, if_neg h2]

/-- interc on a list with at least two components unfolds once. -/
theorem interc_cons (sep x : List Char) (l : List (List Char)) (h : l ≠ []) :
    interc sep (x :: l) = x ++ sep ++ interc sep l := by
  cases l with
  | nil => exact absurd rfl h
  | cons y ys => rfl

/-- The last component is a suffix of the joined components. -/
theorem interc_last_suffix (sep : List Char) :
    ∀ (xs : List (List Char)) (c : List Char),
      c <:+ interc sep (xs ++ [c]) := by
  intro xs
  induction xs with
  | nil => intro c; exact List.suffix_refl c
  | cons x xs ih =>
      intro c
      rw [List.cons_append, interc_cons sep x (xs ++ [c]) (by simp)]
      exact (ih c).trans (List.suffix_append (x ++ sep) _)

/-- path.Clean preserves the trailing ".git" suffix: the last component is a
regular name ending in ".git", it is pushed last onto the clean stack and
survives into the output. -/
theorem clean_dotGit_suffix (p : List Char) (hp : dotGit <:+ p) :
    dotGit <:+ clean p := by
  obtain ⟨t, ht⟩ := hp
  subst ht
  have hpne : t ++ dotGit ≠ [] := by
    intro h
    have h2 := List.append_eq_nil.mp h
    simp [dotGit] at h2
  obtain ⟨qs, c, hsp, hc⟩ := splitParts_last_dotGit t
  have hclen : 4 ≤ c.length := by
    have h4 := hc.length_le
    simpa [dotGit] using h4
  have hcne : c ≠ [] := by intro h; rw [h] at hclen; simp at hclen
  have hc1 : c ≠ ['.'] := by intro h; rw [h] at hclen; simp at hclen
  have hc2 : c ≠ ['.', '.'] := by intro h; rw [h] at hclen; simp at hclen
  have hstack : ∀ r : Bool,
      (splitParts (t ++ dotGit)).foldl (cleanStep r) []
        = (qs.foldl (cleanStep r) []) ++ [c] := by
    intro r
    rw [hsp, List.foldl_append]
    simp [cleanStep_normal r _ c hcne hc1 hc2]
  have hbody : ∀ r : Bool,
      dotGit <:+ interc ['/'] ((splitParts (t ++ dotGit)).foldl (cleanStep r) []) := by
    intro r
    rw [hstack r]
    exact hc.trans (interc_last_suffix ['/'] _ c)
  have hbodyne : ∀ r : Bool,
      interc ['/'] ((splitParts (t ++ dotGit)).foldl (cleanStep r) []) ≠ [] := by
    intro r h
    have h5 := hbody r
    rw [h] at h5
    have h6 := List.suffix_nil.mp h5
    simp [dotGit] at h6
  have hrooted : ∀ r : Bool, dotGit <:+ cleanRooted r (t ++ dotGit) := by
    intro r
    cases r with
    | true =>
        rw [cleanRooted, if_pos rfl]
        exact (hbody true).trans (List.suffix_cons '/' _)
    | false =>
        rw [cleanRooted, if_neg (by simp), if_neg (hbodyne false)]
        exact hbody false
  rw [clean, if_neg hpne]
  exact hrooted _

/-- path.Join of a host and a path ending in ".git" keeps the ".git"
suffix. -/
theorem joinPaths_host_dotGit (host p2 : List Char) (h : dotGit <:+ p2) :
    dotGit <:+ joinPaths [host, p2] := by
  have hp2ne : p2 ≠ [] := by
    intro he
    rw [he] at h
    have h2 := List.suffix_nil.mp h
    simp [dotGit] at h2
  cases host with
  | nil =>
      have h1 : joinPaths [([] : List Char), p2] = clean p2 := by
        rw [joinPaths, if_pos rfl, joinPaths, if_neg hp2ne]
        rfl
      rw [h1]
      exact clean_dotGit_suffix p2 h
  | cons ch hostT =>
      have h1 : joinPaths [ch :: hostT, p2]
          = clean ((ch :: hostT) ++ ['/'] ++ p2) := by
        rw [joinPaths, if_neg (by simp)]
        rfl
      rw [h1]
      exact clean_dotGit_suffix _
        (h.trans (List.suffix_append ((ch :: hostT) ++ ['/']) p2))

/-- Claim C1, counterexample: requesting TransactionalRWMode from the storer
factory of a transactional location fails with ModeNotSupported instead of
yielding the transactional overlay storer. -/
theorem c1_transactionalRW_fails_counterexample :
    repositoryStorer ⟨true, false⟩ "repo" "tmp0" Mode.TransactionalRWMode
      = Except.error (BorgesErr.modeNotSupported Mode.TransactionalRWMode) :=
  rfl

/-- Claim C1, amended: the storer factory answers ModeNotSupported for every
TransactionalRWMode request (the mode falls to the default branch of the
switch); the transactional overlay storer over a fresh temporary directory is
returned for an RWMode request on a location configured as transactional. -/
theorem c1_overlay_built_for_rw_on_transactional_location
    (opts : LocationOpts) (repoPath tmpPath : String) :
    repositoryStorer opts repoPath tmpPath Mode.TransactionalRWMode
      = Except.error (BorgesErr.modeNotSupported Mode.TransactionalRWMode) ∧
    (opts.transactional = true →
      repositoryStorer opts repoPath tmpPath Mode.RWMode
        = Except.ok (Storer.transactionalOverlay (Storer.filesystem repoPath)
            (Storer.filesystem tmpPath), tmpPath)) := by
  refine ⟨rfl, fun h => ?_⟩
  simp [repositoryStorer, repositoryTemporalStorer, h]

/-- Claim C1 witness: the amended theorem applied to a concrete transactional
location. -/
theorem c1_overlay_built_for_rw_on_transactional_location_witness :
    (⟨true, false⟩ : LocationOpts).transactional = true ∧
    repositoryStorer ⟨true, false⟩ "repo" "tmp0" Mode.RWMode
      = Except.ok (Storer.transactionalOverlay (Storer.filesystem "repo")
          (Storer.filesystem "tmp0"), "tmp0") :=
  ⟨rfl,
    (c1_overlay_built_for_rw_on_transactional_location ⟨true, false⟩
      "repo" "tmp0").2 rfl⟩

/-- Claim C2: Commit on a transactional repository handle with zero staged
writes fails with EmptyCommit rather than succeeding as a no-op. -/
theorem c2_empty_commit (r : SivaRepository) (ht : r.transactional = true)
    (hz : r.stagedWrites = 0) :
    sivaCommit r = Except.error BorgesErr.emptyCommit := by
  simp [sivaCommit, ht, hz]

/-- Claim C2 witness: a concrete transactional handle with no staged
writes. -/
theorem c2_empty_commit_witness :
    sivaCommit ⟨true, 0⟩ = Except.error BorgesErr.emptyCommit :=
  c2_empty_commit ⟨true, 0⟩ rfl rfl

/-- Claim C3: Commit on a repository handle whose location is not
transactional returns NonTransactional and never attempts the merge into the
permanent store. -/
theorem c3_commit_non_transactional (r : PlainRepository)
    (tsErr removeErr : Option BorgesErr) (h : r.transactionalOpts = false) :
    (r.Commit tsErr removeErr).outcome
        = Outcome.error BorgesErr.nonTransactional ∧
    (r.Commit tsErr removeErr).mergeAttempted = false := by
  simp [PlainRepository.Commit, h]

/-- Claim C3 witness: a concrete non-transactional handle. -/
theorem c3_commit_non_transactional_witness :
    ((⟨"r", Mode.RWMode, false, "", Storer.filesystem "p"⟩ :
        PlainRepository).Commit none none).outcome
      = Outcome.error BorgesErr.nonTransactional :=
  (c3_commit_non_transactional
    ⟨"r", Mode.RWMode, false, "", Storer.filesystem "p"⟩ none none rfl).1

/-- Claim C6: for a transactional deployment, every requested registry-cache
capacity below the documented minimum (zero included) is clamped to that
minimum; the requested value is not honored verbatim. -/
theorem c6_registry_cache_clamp (minimum requested : Nat)
    (h : requested < minimum) :
    effectiveRegistryCache true minimum requested = minimum := by
  simp [effectiveRegistryCache, h]

/-- Claim C6 witness: requested capacity zero below a concrete minimum. -/
theorem c6_registry_cache_clamp_witness :
    effectiveRegistryCache true 2 0 = 2 :=
  c6_registry_cache_clamp 2 0 (by decide)

/-- Claim C7: on a transactional handle, Commit panics (the unreachable-state
assertion) when the carried storer is not the composite transactional
overlay, and never panics when it is the composite overlay. -/
theorem c7_commit_type_assertion (r : PlainRepository)
    (tsErr removeErr : Option BorgesErr) (h : r.transactionalOpts = true) :
    ((∀ p t, r.storer ≠ Storer.transactionalOverlay p t) →
      (r.Commit tsErr removeErr).outcome = Outcome.panicked) ∧
    (∀ p t, r.storer = Storer.transactionalOverlay p t →
      (r.Commit tsErr removeErr).outcome ≠ Outcome.panicked) := by
  constructor
  · intro hne
    cases hs : r.storer with
    | filesystem root => simp [PlainRepository.Commit, h, hs]
    | readOnlyGuard inner => simp [PlainRepository.Commit, h, hs]
    | transactionalOverlay p t => exact absurd hs (hne p t)
  · intro p t hs
    cases tsErr with
    | some e => simp [PlainRepository.Commit, h, hs]
    | none =>
        cases hc : (r.Close removeErr).err with
        | some e =>
            simp [PlainRepository.Commit, h, hs, hc]
        | none =>
            simp [PlainRepository.Commit, h, hs, hc]

/-- Claim C7 witness: a concrete transactional handle carrying a plain
filesystem storer reaches the panic branch. -/
theorem c7_commit_type_assertion_witness :
    ((⟨"r", Mode.RWMode, true, "tmp", Storer.filesystem "p"⟩ :
        PlainRepository).Commit none none).outcome = Outcome.panicked :=
  (c7_commit_type_assertion
    ⟨"r", Mode.RWMode, true, "tmp", Storer.filesystem "p"⟩ none none rfl).1
    (fun _ _ hs => Storer.noConfusion hs)

/-- Claim C9: on a transactional handle, Commit always runs the deferred
close before returning, for every merge result and every close result, so
the temporal directory removal is executed on every Commit outcome. -/
theorem c9_commit_always_closes (r : PlainRepository)
    (tsErr removeErr : Option BorgesErr) (h : r.transactionalOpts = true) :
    (r.Commit tsErr removeErr).closeCalled = true ∧
    (r.Commit tsErr removeErr).tempReleased = true ∧
    (r.Close removeErr).removedTemp = true := by
  refine ⟨?_, ?_, ?_⟩ <;>
    cases hs : r.storer <;>
      simp [PlainRepository.Commit, PlainRepository.Close, h, hs]

/-- Claim C9 witness: a concrete transactional handle whose merge fails still
runs the deferred close and releases the temporal directory. -/
theorem c9_commit_always_closes_witness :
    ((⟨"r", Mode.RWMode, true, "tmp",
        Storer.transactionalOverlay (Storer.filesystem "p")
          (Storer.filesystem "tmp")⟩ :
        PlainRepository).Commit (some (BorgesErr.other "merge failed"))
        none).closeCalled = true :=
  (c9_commit_always_closes
    ⟨"r", Mode.RWMode, true, "tmp",
      Storer.transactionalOverlay (Storer.filesystem "p")
        (Storer.filesystem "tmp")⟩
    (some (BorgesErr.other "merge failed")) none rfl).1

/-- On members whose Get answers RepositoryNotExists, the Get loop skips
forward, advancing the probe index. -/
theorem librariesGetAux_skip (ctxDone : Nat → Bool) (id : String) (mode : Mode)
    (hctx : ∀ i, ctxDone i = false) :
    ∀ (pre rest : List MemberLib) (i : Nat),
      (∀ x ∈ pre, respIsNotExists (x.getResp id mode) = true) →
      librariesGetAux ctxDone id mode i (pre ++ rest)
        = librariesGetAux ctxDone id mode (i + pre.length) rest := by
  intro pre
  induction pre with
  | nil => intro rest i _; simp
  | cons x pre ih =>
      intro rest i hpre
      have hx : respIsNotExists (x.getResp id mode) = true :=
        hpre x (List.mem_cons_self x pre)
      have hrec := ih rest (i + 1) (fun y hy => hpre y (List.mem_cons_of_mem x hy))
      cases hg : x.getResp id mode with
      | ok r => rw [hg] at hx; simp [respIsNotExists] at hx
      | error e =>
          rw [hg] at hx
          have he : isRepoNotExists e = true := hx
          simp only [List.cons_append, librariesGetAux, hctx i, he,
            Bool.false_eq_true, if_false, hg, if_true]
          rw [List.append_eq, hrec]
          have h3 : i + 1 + pre.length = i + (pre.length + 1) := by omega
          rw [h3]
          rfl

/-- Claim C5: the aggregator's Get returns the response of the first member
(in iteration order) that does not answer RepositoryNotExists, whatever
members follow it; when every member answers RepositoryNotExists, Get
answers RepositoryNotExists. Stated under a never-expiring deadline. -/
theorem c5_get_first_match (ctxDone : Nat → Bool) (id : String) (mode : Mode)
    (hctx : ∀ i, ctxDone i = false) :
    (∀ (pre post : List MemberLib) (m : MemberLib),
      (∀ x ∈ pre, respIsNotExists (x.getResp id mode) = true) →
      respIsNotExists (m.getResp id mode) = false →
      librariesGet ctxDone (pre ++ m :: post) id mode = m.getResp id mode) ∧
    (∀ libs : List MemberLib,
      (∀ x ∈ libs, respIsNotExists (x.getResp id mode) = true) →
      librariesGet ctxDone libs id mode
        = Except.error (BorgesErr.repositoryNotExists id)) := by
  constructor
  · intro pre post m hpre hm
    unfold librariesGet
    rw [librariesGetAux_skip ctxDone id mode hctx pre (m :: post) 0 hpre]
    cases hg : m.getResp id mode with
    | ok r => simp [librariesGetAux, hctx, hg]
    | error e =>
        rw [hg] at hm
        have he : isRepoNotExists e = false := hm
        simp [librariesGetAux, hctx, hg, he]
  · intro libs hlibs
    have hall : ∀ i, librariesGetAux ctxDone id mode i libs
        = Except.error (BorgesErr.repositoryNotExists id) := by
      induction libs with
      | nil => intro i; rfl
      | cons x libs ih =>
          intro i
          have hx : respIsNotExists (x.getResp id mode) = true :=
            hlibs x (List.mem_cons_self x libs)
          have hrec := ih (fun y hy => hlibs y (List.mem_cons_of_mem x hy))
          cases hg : x.getResp id mode with
          | ok r => rw [hg] at hx; simp [respIsNotExists] at hx
          | error e =>
              rw [hg] at hx
              have he : isRepoNotExists e = true := hx
              simp [librariesGetAux, hctx, hg, he, hrec]
    exact hall 0

/-- Member whose Get answers RepositoryNotExists, for the C5 witness. -/
def getLibMiss : MemberLib :=
  ⟨"miss", fun i _ => Except.error (BorgesErr.repositoryNotExists i),
    fun _ => Except.ok (false, "", "")⟩

/-- Member whose Get answers a repository handle, for the C5 witness. -/
def getLibHit : MemberLib :=
  ⟨"hit", fun _ _ => Except.ok 7, fun _ => Except.ok (true, "hit", "loc")⟩

/-- Claim C5 witness: a first member answering RepositoryNotExists is
skipped and the second member's successful response is returned. -/
theorem c5_get_first_match_witness :
    librariesGet (fun _ => false) [getLibMiss, getLibHit] "x" Mode.RWMode
      = Except.ok 7 := by
  have hpre : ∀ x ∈ [getLibMiss],
      respIsNotExists (x.getResp "x" Mode.RWMode) = true := by
    intro x hx
    rw [List.mem_singleton] at hx
    subst hx
    rfl
  exact (c5_get_first_match (fun _ => false) "x" Mode.RWMode (fun _ => rfl)).1
    [getLibMiss] [] getLibHit hpre rfl

/-- Member whose Has answers a RepositoryNotExists error, for claim C4. -/
def hasLibNotExistsErr : MemberLib :=
  ⟨"A", fun i _ => Except.error (BorgesErr.repositoryNotExists i),
    fun i => Except.error (BorgesErr.repositoryNotExists i)⟩

/-- Member whose Has answers a positive match, for claim C4. -/
def hasLibFound : MemberLib :=
  ⟨"B", fun _ _ => Except.ok 1, fun _ => Except.ok (true, "B", "locB")⟩

/-- Member whose Has answers no-match without error, for the C4 witness. -/
def hasLibNoMatch : MemberLib :=
  ⟨"C", fun _ _ => Except.ok 2, fun _ => Except.ok (false, "", "")⟩

/-- Claim C4, counterexample: a member answering a RepositoryNotExists error
makes the aggregator's Has return that error immediately, even though a
later member would have answered a positive match; the search is not
continued and no false result is returned. -/
theorem c4_has_notexists_terminal_counterexample :
    librariesHas (fun _ => false) [hasLibNotExistsErr, hasLibFound] "x"
      = Except.error (BorgesErr.repositoryNotExists "x") ∧
    hasLibFound.hasResp "x" = Except.ok (true, "B", "locB") :=
  ⟨rfl, rfl⟩

/-- On members whose Has answers no-match without error, the Has loop skips
forward, advancing the probe index. -/
theorem librariesHasAux_skip (ctxDone : Nat → Bool) (id : String)
    (hctx : ∀ i, ctxDone i = false) :
    ∀ (pre rest : List MemberLib) (i : Nat),
      (∀ x ∈ pre, ∃ a b, x.hasResp id = Except.ok (false, a, b)) →
      librariesHasAux ctxDone id i (pre ++ rest)
        = librariesHasAux ctxDone id (i + pre.length) rest := by
  intro pre
  induction pre with
  | nil => intro rest i _; simp
  | cons x pre ih =>
      intro rest i hpre
      obtain ⟨a, b, hx⟩ := hpre x (List.mem_cons_self x pre)
      have hrec := ih rest (i + 1) (fun y hy => hpre y (List.mem_cons_of_mem x hy))
      simp only [List.cons_append, librariesHasAux, hctx i,
        Bool.false_eq_true, if_false, hx]
      rw [List.append_eq, hrec]
      have h3 : i + 1 + pre.length = i + (pre.length + 1) := by omega
      rw [h3]
      rfl

/-- Claim C4, amended: the aggregator's Has continues past a member only
when that member answers no-match without error; any member error, a
RepositoryNotExists error included, terminates the search and is returned;
when every member answers no-match without error, Has returns a false
result without error. Stated under a never-expiring deadline. -/
theorem c4_has_error_terminates (ctxDone : Nat → Bool) (id : String)
    (hctx : ∀ i, ctxDone i = false) :
    (∀ libs : List MemberLib,
      (∀ x ∈ libs, ∃ a b, x.hasResp id = Except.ok (false, a, b)) →
      librariesHas ctxDone libs id = Except.ok (false, "", "")) ∧
    (∀ (pre post : List MemberLib) (m : MemberLib) (e : BorgesErr),
      (∀ x ∈ pre, ∃ a b, x.hasResp id = Except.ok (false, a, b)) →
      m.hasResp id = Except.error e →
      librariesHas ctxDone (pre ++ m :: post) id = Except.error e) := by
  constructor
  · intro libs hlibs
    unfold librariesHas
    have h0 := librariesHasAux_skip ctxDone id hctx libs [] 0 hlibs
    rw [List.append_nil] at h0
    rw [h0]
    rfl
  · intro pre post m e hpre hm
    unfold librariesHas
    rw [librariesHasAux_skip ctxDone id hctx pre (m :: post) 0 hpre]
    simp [librariesHasAux, hctx, hm]

/-- Claim C4 witness: the amended theorem applied to a concrete member list
where the second member errors. -/
theorem c4_has_error_terminates_witness :
    librariesHas (fun _ => false) [hasLibNoMatch, hasLibNotExistsErr] "x"
      = Except.error (BorgesErr.repositoryNotExists "x") := by
  have hpre : ∀ x ∈ [hasLibNoMatch],
      ∃ a b, x.hasResp "x" = Except.ok (false, a, b) := by
    intro x hx
    rw [List.mem_singleton] at hx
    subst hx
    exact ⟨"", "", rfl⟩
  exact (c4_has_error_terminates (fun _ => false) "x" (fun _ => rfl)).2
    [hasLibNoMatch] [] hasLibNotExistsErr (BorgesErr.repositoryNotExists "x")
    hpre rfl

/-- Claim C10: the aggregator's ID is always the empty string, and adding a
member whose ID equals an aggregator's ID to an empty aggregator keys it
under the empty LibraryID. -/
theorem c10_aggregator_empty_id (a : LibrariesAgg) :
    a.ID = "" ∧
    ∀ (host : LibrariesAgg) (m : MemberLib), host.libs = [] → m.id = a.ID →
      host.add m = Except.ok ⟨[("", m)], host.timeoutSeconds⟩ := by
  refine ⟨rfl, fun host m h1 h2 => ?_⟩
  have h2' : m.id = "" := h2
  simp [LibrariesAgg.add, h1, h2', List.lookup]

/-- Member library with the empty ID used to witness claim C10. -/
def memberWithEmptyID : MemberLib :=
  ⟨"", fun i _ => Except.error (BorgesErr.repositoryNotExists i),
    fun _ => Except.ok (false, "", "")⟩

/-- Claim C10 witness: adding a member carrying the aggregator's empty ID to
a concrete empty aggregator stores it under the empty key. -/
theorem c10_aggregator_empty_id_witness :
    LibrariesAgg.ID ⟨[], 60⟩ = "" ∧
    LibrariesAgg.add ⟨[], 60⟩ memberWithEmptyID
      = Except.ok ⟨[("", memberWithEmptyID)], 60⟩ :=
  ⟨(c10_aggregator_empty_id ⟨[], 60⟩).1,
    (c10_aggregator_empty_id ⟨[], 60⟩).2 ⟨[], 60⟩ memberWithEmptyID rfl rfl⟩

/-- Claim C8: for every parsed endpoint (host and path as produced by the
external endpoint parse, which strips scheme and credentials), the
RepositoryID built by NewRepositoryID ends in the fixed suffix ".git" and
is exactly path.Join of the host and the suffixed path; a path already
ending in ".git" is joined unchanged, so the suffix is never appended
twice. -/
theorem c8_repository_id_suffix (host p : List Char) :
    dotGit <:+ newRepositoryID host p ∧
    (dotGit <:+ p → newRepositoryID host p = joinPaths [host, p]) := by
  constructor
  · rw [newRepositoryID]
    by_cases hs : dotGit <:+ p
    · rw [if_pos hs]
      exact joinPaths_host_dotGit host p hs
    · rw [if_neg hs]
      exact joinPaths_host_dotGit host (p ++ dotGit)
        (List.suffix_append p dotGit)
  · intro hs
    rw [newRepositoryID, if_pos hs]

/-- Claim C8 witness: a one-character host and a path already ending in
".git" — the id ends in ".git" and the path is joined unchanged. -/
theorem c8_repository_id_suffix_witness :
    dotGit <:+ ['a', '.', 'g', 'i', 't'] ∧
    newRepositoryID ['h'] ['a', '.', 'g', 'i', 't']
      = joinPaths [['h'], ['a', '.', 'g', 'i', 't']] ∧
    dotGit <:+ newRepositoryID ['h'] ['a', '.', 'g', 'i', 't'] :=
  ⟨⟨['a'], rfl⟩,
    (c8_repository_id_suffix ['h'] ['a', '.', 'g', 'i', 't']).2 ⟨['a'], rfl⟩,
    (c8_repository_id_suffix ['h'] ['a', '.', 'g', 'i', 't']).1⟩

end Borges
